import Mathlib

/-!
Verification development for the justtouch peer-to-peer file-transfer core
(src/p2p_manager.py, src/file_manager.py, src/utils.py).

The Python code is shallowly embedded: files are byte lists addressed by a
filesystem map, TCP streams are byte lists paired with a delivery schedule
(how many bytes each recv call may return), Python dicts are association
lists with the insertion-order update semantics of dict assignment, and the
MD5 hash is abstracted as a function parameter (the claims under study do
not depend on a particular digest value, only on how digests are compared
and combined).  Socket setup (bind, listen, accept, connect) is modelled as
succeeding; timeouts and I/O exceptions on those steps are outside the
scope of the claims proved here.
-/

/-- Bytes are natural numbers; a byte string is a list of them. -/
abbrev ByteList := List Nat

/-- Model of one side of a TCP stream as seen by a receiver: data holds the
bytes still in flight (an empty list means the peer closed the stream), and
sched limits how many bytes each successive recv call delivers, modelling
partial reads; an exhausted schedule means recv delivers as much as asked. -/
structure ByteStream where
  data : ByteList
  sched : List Nat
deriving DecidableEq

/-- Number of bytes a recv call asking for n bytes may deliver under the
head of the schedule: capped by the schedule entry (forced positive), or
the full request when the schedule is exhausted. -/
def deliveryCap (n : Nat) (sched : List Nat) : Nat :=
  match sched with
  | [] => n
  | k :: _ => min n (max k 1)

/-- Model of socket.recv(n): returns at most n bytes, at least one byte when
data remains (the schedule cap is forced to be positive), and the empty list
exactly when the stream is closed (no data left). -/
def recvBytes (n : Nat) (s : ByteStream) : ByteList × ByteStream :=
  (s.data.take (deliveryCap n s.sched),
   ⟨s.data.drop (deliveryCap n s.sched), s.sched.tail⟩)

theorem deliveryCap_pos (n : Nat) (sched : List Nat) (h : 1 ≤ n) :
    1 ≤ deliveryCap n sched := by
  cases sched <;> simp [deliveryCap] <;> omega

theorem deliveryCap_le (n : Nat) (sched : List Nat) : deliveryCap n sched ≤ n := by
  cases sched <;> simp [deliveryCap]

/-- Model of int.to_bytes(4, byteorder='big') used by P2PManager._send_json. -/
def toBytesBE4 (n : Nat) : ByteList :=
  [n / 2 ^ 24 % 256, n / 2 ^ 16 % 256, n / 2 ^ 8 % 256, n % 256]

/-- Model of int.from_bytes(bs, byteorder='big') used by P2PManager._receive_json. -/
def fromBytesBE (bs : ByteList) : Nat :=
  bs.foldl (fun a b => a * 256 + b) 0

/-- The payload-accumulation loop of P2PManager._receive_json: while fewer
than the prefixed number of bytes have arrived, recv the remainder; a
zero-length read returns None.  The fuel argument is a bound on the number
of recv calls; since every successful recv delivers at least one byte,
fuel = need is always sufficient, and the top-level wrapper passes that. -/
def recvLoopF : Nat → Nat → ByteStream → Option (ByteList × ByteStream)
  | 0, need, s => if need = 0 then some ([], s) else none
  | fuel + 1, need, s =>
    if need = 0 then some ([], s)
    else
      let p := recvBytes need s
      if p.1.length = 0 then none
      else
        match recvLoopF fuel (need - p.1.length) p.2 with
        | none => none
        | some (rest, s2) => some (p.1 ++ rest, s2)

/-- Model of P2PManager._send_json: a 4-byte big-endian length prefix
followed by the encoded JSON payload.  The JSON serialization of the Python
dict is abstracted as the function enc. -/
def sendJson {M : Type} (enc : M → ByteList) (d : M) : ByteList :=
  toBytesBE4 (enc d).length ++ enc d

/-- Model of P2PManager._receive_json: one recv(4) for the length prefix
(returning None if it yields fewer than 4 bytes), then the accumulation
loop for exactly that many payload bytes, then JSON decoding.  The decode
function dec abstracts json.loads; a decode failure is mapped to none (in
the source it raises, and every caller converts that to a failed
operation).  The second component is the stream as left after the reads. -/
def receiveJson {M : Type} (dec : ByteList → Option M) (s : ByteStream) :
    Option M × ByteStream :=
  let p := recvBytes 4 s
  if p.1.length < 4 then (none, p.2)
  else
    let len := fromBytesBE p.1
    match recvLoopF len len p.2 with
    | none => (none, p.2)
    | some (payload, s2) => (dec payload, s2)

/-- Condition on a delivery schedule under which the single recv(4) for the
length prefix obtains all 4 bytes (the source performs no accumulation loop
for the prefix, so a shorter first delivery makes it give up). -/
def schedFirstGe4 : List Nat → Prop
  | [] => True
  | k :: _ => 4 ≤ k

theorem fromBytesBE_toBytesBE4 (n : Nat) (h : n < 2 ^ 32) :
    fromBytesBE (toBytesBE4 n) = n := by
  simp only [fromBytesBE, toBytesBE4, List.foldl]
  omega

theorem recvLoopF_complete (fuel : Nat) : ∀ (need : Nat) (data : ByteList)
    (sched : List Nat), need ≤ fuel → need ≤ data.length →
    ∃ sched2, recvLoopF fuel need ⟨data, sched⟩
      = some (data.take need, ⟨data.drop need, sched2⟩) := by
  induction fuel with
  | zero =>
    intro need data sched hf _
    refine ⟨sched, ?_⟩
    interval_cases need
    simp [recvLoopF]
  | succ fuel ih =>
    intro need data sched hf hd
    by_cases h0 : need = 0
    · subst h0; exact ⟨sched, by simp [recvLoopF]⟩
    · have hcap1 : 1 ≤ deliveryCap need sched := deliveryCap_pos _ _ (by omega)
      have hcapn : deliveryCap need sched ≤ need := deliveryCap_le _ _
      set cap := deliveryCap need sched with hcapdef
      have hcaplen : cap ≤ data.length := le_trans hcapn hd
      have hchunk : (data.take cap).length = cap := by
        simp [List.length_take]; omega
      obtain ⟨sched2, hrec⟩ := ih (need - cap) (data.drop cap) sched.tail
        (by omega) (by simp [List.length_drop]; omega)
      refine ⟨sched2, ?_⟩
      simp only [recvLoopF, if_neg h0, recvBytes, ← hcapdef, hchunk]
      have hne : ¬ cap = 0 := by omega
      simp only [hne, if_false]
      rw [hrec]
      have ht : data.take cap ++ (data.drop cap).take (need - cap)
          = data.take need := by
        rw [← List.take_add]
        congr 1; omega
      have hdp : (data.drop cap).drop (need - cap) = data.drop need := by
        rw [List.drop_drop]; congr 1; omega
      dsimp only
      rw [ht, hdp]

theorem recvLoopF_short (fuel : Nat) : ∀ (need : Nat) (data : ByteList)
    (sched : List Nat), data.length < need →
    recvLoopF fuel need ⟨data, sched⟩ = none := by
  induction fuel with
  | zero =>
    intro need data sched hd
    have : ¬ need = 0 := by omega
    simp [recvLoopF, this]
  | succ fuel ih =>
    intro need data sched hd
    have h0 : ¬ need = 0 := by omega
    simp only [recvLoopF, if_neg h0, recvBytes]
    set cap := deliveryCap need sched with hcapdef
    have hchunklen : (data.take cap).length = min cap data.length := by
      simp [List.length_take]
    by_cases hz : (data.take cap).length = 0
    · simp [hz]
    · simp only [hz, if_false]
      rw [ih (need - (data.take cap).length) (data.drop cap) sched.tail ?_]
      rw [hchunklen] at hz ⊢
      simp only [List.length_drop]
      omega

theorem receiveJson_roundtrip {M : Type} (dec : ByteList → Option M)
    (payload extra : ByteList) (sched : List Nat)
    (hlen : payload.length < 2 ^ 32) (hsched : schedFirstGe4 sched) :
    (receiveJson dec ⟨toBytesBE4 payload.length ++ (payload ++ extra), sched⟩).1
      = dec payload := by
  have hlen4 : (toBytesBE4 payload.length).length = 4 := by simp [toBytesBE4]
  have hcap : deliveryCap 4 sched = 4 := by
    cases sched with
    | nil => rfl
    | cons k tl =>
      simp only [schedFirstGe4] at hsched
      simp [deliveryCap]
      omega
  have h1 : recvBytes 4 ⟨toBytesBE4 payload.length ++ (payload ++ extra), sched⟩
      = (toBytesBE4 payload.length, ⟨payload ++ extra, sched.tail⟩) := by
    simp only [recvBytes, hcap]
    rw [List.take_left' hlen4, List.drop_left' hlen4]
  obtain ⟨sched2, h2⟩ := recvLoopF_complete payload.length payload.length
    (payload ++ extra) sched.tail le_rfl (by simp)
  have h3 : (payload ++ extra).take payload.length = payload :=
    List.take_left' rfl
  simp only [receiveJson, h1, hlen4]
  norm_num
  rw [fromBytesBE_toBytesBE4 _ hlen, h2, h3]

theorem receiveJson_prefix_short {M : Type} (dec : ByteList → Option M)
    (data : ByteList) (sched : List Nat) (h : data.length < 4) :
    (receiveJson dec ⟨data, sched⟩).1 = none := by
  simp [receiveJson, recvBytes, h]

theorem receiveJson_payload_short {M : Type} (dec : ByteList → Option M)
    (L : Nat) (payload : ByteList) (sched : List Nat)
    (hp : payload.length < L) (hL : L < 2 ^ 32) :
    (receiveJson dec ⟨toBytesBE4 L ++ payload, sched⟩).1 = none := by
  have hlen4 : (toBytesBE4 L).length = 4 := by simp [toBytesBE4]
  have hcaple : deliveryCap 4 sched ≤ 4 := deliveryCap_le _ _
  by_cases hcap : deliveryCap 4 sched = 4
  · have h1 : recvBytes 4 ⟨toBytesBE4 L ++ payload, sched⟩
        = (toBytesBE4 L, ⟨payload, sched.tail⟩) := by
      simp only [recvBytes, hcap]
      rw [List.take_left' hlen4, List.drop_left' hlen4]
    have h2 : recvLoopF L L ⟨payload, sched.tail⟩ = none :=
      recvLoopF_short L L payload sched.tail hp
    simp only [receiveJson, h1, hlen4]
    norm_num
    rw [fromBytesBE_toBytesBE4 _ hL, h2]
  · have hlt : deliveryCap 4 sched < 4 := by omega
    simp [receiveJson, recvBytes, hlt]

/-- C6: for every JSON-serializable dictionary, _send_json emits the 4-byte
big-endian length prefix of the UTF-8 JSON encoding followed by exactly that
payload, and _receive_json applied to the resulting stream (under any
delivery schedule whose first recv yields the whole 4-byte prefix)
loop-accumulates exactly the prefixed number of payload bytes and returns a
dictionary equal to the original one; if the stream ends before the 4
prefix bytes, or before the full declared payload has arrived,
_receive_json returns None. -/
theorem json_framing_roundtrip_spec {M : Type} (enc : M → ByteList)
    (dec : ByteList → Option M) (d : M) (extra : ByteList) (sched : List Nat)
    (hdec : dec (enc d) = some d) (hlen : (enc d).length < 2 ^ 32)
    (hsched : schedFirstGe4 sched) :
    (sendJson enc d).take 4 = toBytesBE4 (enc d).length
    ∧ (sendJson enc d).drop 4 = enc d
    ∧ fromBytesBE ((sendJson enc d).take 4) = (enc d).length
    ∧ (receiveJson dec ⟨sendJson enc d ++ extra, sched⟩).1 = some d
    ∧ (∀ (data : ByteList) (sch : List Nat), data.length < 4 →
        (receiveJson dec (ByteStream.mk data sch)).1 = none)
    ∧ (∀ (L : Nat) (payload : ByteList) (sch : List Nat),
        payload.length < L → L < 2 ^ 32 →
        (receiveJson dec (ByteStream.mk (toBytesBE4 L ++ payload) sch)).1 = none) := by
  have hlen4 : (toBytesBE4 (enc d).length).length = 4 := by simp [toBytesBE4]
  have ha : sendJson enc d ++ extra
      = toBytesBE4 (enc d).length ++ (enc d ++ extra) := by
    simp [sendJson, List.append_assoc]
  refine ⟨List.take_left' hlen4, List.drop_left' hlen4, ?_, ?_, ?_, ?_⟩
  · simp only [sendJson]
    rw [List.take_left' hlen4, fromBytesBE_toBytesBE4 _ hlen]
  · rw [ha, receiveJson_roundtrip dec (enc d) extra sched hlen hsched, hdec]
  · exact fun data sch h => receiveJson_prefix_short dec data sch h
  · exact fun L payload sch h1 h2 => receiveJson_payload_short dec L payload sch h1 h2

/-- Concrete encoder used by the C6 witness: a one-byte encoding of small
naturals standing in for a JSON serialization. -/
def encW : Nat → ByteList := fun n => [n % 256]

/-- Concrete decoder used by the C6 witness, a left inverse of encW on
naturals below 256. -/
def decW : ByteList → Option Nat := fun bs =>
  match bs with
  | [b] => some b
  | _ => none

theorem json_framing_roundtrip_spec_witness :
    decW (encW 5) = some 5 ∧ (encW 5).length < 2 ^ 32 ∧ schedFirstGe4 []
    ∧ (receiveJson decW ⟨sendJson encW 5 ++ [], []⟩).1 = some 5 :=
  ⟨by decide, by decide, trivial,
    (json_framing_roundtrip_spec encW decW 5 [] [] (by decide) (by decide)
      trivial).2.2.2.1⟩

/-- Python dict assignment d[k] = v on an insertion-ordered association
list: an existing key keeps its position and gets the new value, a new key
is appended at the end. -/
def dictInsert {α : Type} (m : List (String × α)) (k : String) (v : α) :
    List (String × α) :=
  if m.any (fun p => p.1 == k) then
    m.map (fun p => if p.1 == k then (k, v) else p)
  else m ++ [(k, v)]

/-- Python dict lookup d.get(k) on an association list. -/
def dictGet {α : Type} (m : List (String × α)) (k : String) : Option α :=
  (m.find? (fun p => p.1 == k)).map Prod.snd

theorem mem_dictInsert {α : Type} {m : List (String × α)} {k : String}
    {v : α} {pr : String × α} (h : pr ∈ dictInsert m k v) :
    pr ∈ m ∨ pr = (k, v) := by
  unfold dictInsert at h
  split at h
  · obtain ⟨q, hq, hfq⟩ := List.mem_map.mp h
    split at hfq
    · exact Or.inr hfq.symm
    · exact Or.inl (hfq ▸ hq)
  · rcases List.mem_append.mp h with h1 | h1
    · exact Or.inl h1
    · exact Or.inr (by simpa using h1)

theorem dictInsert_keys {α : Type} (m : List (String × α)) (k : String)
    (v : α) (hany : m.any (fun p => p.1 == k)) :
    (dictInsert m k v).map Prod.fst = m.map Prod.fst := by
  simp only [dictInsert, hany, if_true, List.map_map]
  apply List.map_congr_left
  intro p _
  by_cases hpk : p.1 = k
  · simp [Function.comp, hpk]
  · simp [Function.comp, hpk]

theorem find_mapped_replace {α : Type} (k : String) (v : α) :
    ∀ (m : List (String × α)), m.any (fun p => p.1 == k) →
    (((m.map (fun p => if p.1 == k then (k, v) else p)).find?
      (fun p => p.1 == k)).map Prod.snd) = some v := by
  intro m
  induction m with
  | nil => simp
  | cons e rest ih =>
    intro hany
    by_cases hek : e.1 = k
    · simp [List.find?_cons, hek]
    · have hany' : rest.any (fun p => p.1 == k) := by
        simpa [List.any_cons, hek] using hany
      simpa [List.find?_cons, hek] using ih hany'

theorem dictGet_dictInsert_self {α : Type} (m : List (String × α))
    (k : String) (v : α) : dictGet (dictInsert m k v) k = some v := by
  unfold dictInsert
  by_cases hany : m.any (fun p => p.1 == k)
  · rw [if_pos hany]
    exact find_mapped_replace k v m hany
  · rw [if_neg hany]
    have hnone : m.find? (fun p => p.1 == k) = none := by
      rw [List.find?_eq_none]
      intro p hp hc
      simp only [List.any_eq_true, not_exists, not_and] at hany
      exact absurd hc (by simpa using hany p hp)
    simp [dictGet, List.find?_append, hnone, List.find?]

/-- Model of the filesystem: maps a path to the file's bytes, or none when
no file exists at that path (os.path.exists is isSome, os.stat st_size is
the length of the bytes). -/
abbrev FileSys := String → Option ByteList

/-- Model of os.path.basename: the part of the path after the last slash,
computed over the character list so that it evaluates by reduction. -/
def basename (p : String) : String :=
  String.mk ((p.data.reverse.takeWhile (fun c => c ≠ '/')).reverse)

/-- One value of TransferSession.file_metadata: the per-file record built
by TransferSession._calculate_metadata. -/
structure FileMeta where
  path : String
  name : String
  size : Nat
  chunks : Nat
  checksum : String
deriving DecidableEq

/-- Model of the TransferSession object of src/p2p_manager.py.  The fields
received_chunks, peer_connection and data_channel are never read by the
operations under study and are omitted. -/
structure TransferSession where
  session_id : String
  files : List String
  file_metadata : List (String × FileMeta)
  total_size : Nat
  transferred_size : Nat
  is_active : Bool
deriving DecidableEq

/-- The loop of TransferSession._calculate_metadata: for each path that
exists, stat it, key the record by a deterministic hash of the path
(hashlib.md5 of the path, abstracted as idFn), record size, chunk count
(size // 8192) + 1 and the whole-file checksum (hashlib.md5 of the content,
abstracted as hash), and add its size to the running total; a path that
does not exist is skipped.  The accumulator is the pair
(file_metadata, total_size). -/
def calcMeta (fs : FileSys) (idFn : String → String) (hash : ByteList → String) :
    List String → List (String × FileMeta) × Nat → List (String × FileMeta) × Nat
  | [], acc => acc
  | p :: rest, (md, tot) =>
    match fs p with
    | none => calcMeta fs idFn hash rest (md, tot)
    | some content =>
      calcMeta fs idFn hash rest
        (dictInsert md (idFn p)
          ⟨p, basename p, content.length, content.length / 8192 + 1, hash content⟩,
         tot + content.length)

/-- Model of TransferSession.__init__: metadata is calculated only when the
file list is non-empty (the if files: guard); transferred_size starts at 0
and is_active at False. -/
def mkTransferSession (sid : String) (files : List String) (fs : FileSys)
    (idFn : String → String) (hash : ByteList → String) : TransferSession :=
  let acc := if files.isEmpty then ([], 0) else calcMeta fs idFn hash files ([], 0)
  ⟨sid, files, acc.1, acc.2, 0, false⟩

/-- Model of P2PManager.create_session: builds the TransferSession and
stores it in the session registry keyed by session_id, returning True.  In
the embedding the construction cannot raise, so the except-branch that
returns False is unreachable. -/
def create_session (fs : FileSys) (idFn : String → String)
    (hash : ByteList → String) (registry : List (String × TransferSession))
    (sid : String) (files : List String) :
    Bool × List (String × TransferSession) :=
  (true, dictInsert registry sid (mkTransferSession sid files fs idFn hash))

theorem calcMeta_total (fs : FileSys) (idFn : String → String)
    (hash : ByteList → String) : ∀ (files : List String)
    (md : List (String × FileMeta)) (tot : Nat),
    (calcMeta fs idFn hash files (md, tot)).2
      = tot + (files.map (fun p => ((fs p).getD []).length)).sum := by
  intro files
  induction files with
  | nil => intro md tot; simp [calcMeta]
  | cons p rest ih =>
    intro md tot
    cases hfp : fs p with
    | none => simp [calcMeta, hfp, ih]
    | some content => simp [calcMeta, hfp, ih]; omega

theorem calcMeta_entries (fs : FileSys) (idFn : String → String)
    (hash : ByteList → String) : ∀ (files : List String)
    (acc : List (String × FileMeta) × Nat) (pr : String × FileMeta),
    pr ∈ (calcMeta fs idFn hash files acc).1 → pr ∈ acc.1 ∨
    ∃ p content, p ∈ files ∧ fs p = some content ∧
      pr = (idFn p, ⟨p, basename p, content.length,
                    content.length / 8192 + 1, hash content⟩) := by
  intro files
  induction files with
  | nil => intro acc pr h; exact Or.inl h
  | cons p rest ih =>
    intro acc pr h
    rcases acc with ⟨md, tot⟩
    cases hfp : fs p with
    | none =>
      rw [calcMeta, hfp] at h
      rcases ih _ pr h with h1 | ⟨q, c, hq, hc, he⟩
      · exact Or.inl h1
      · exact Or.inr ⟨q, c, List.mem_cons_of_mem _ hq, hc, he⟩
    | some content =>
      rw [calcMeta, hfp] at h
      rcases ih _ pr h with h1 | ⟨q, c, hq, hc, he⟩
      · rcases mem_dictInsert h1 with h2 | h2
        · exact Or.inl h2
        · exact Or.inr ⟨p, content, List.mem_cons_self _ _, hfp, h2⟩
      · exact Or.inr ⟨q, c, List.mem_cons_of_mem _ hq, hc, he⟩

/-- Sum of the declared sizes of all entries of a file_metadata dict. -/
def sumSizes (md : List (String × FileMeta)) : Nat :=
  (md.map (fun p => p.2.size)).sum

theorem sumSizes_mapReplace_le (k : String) (v : FileMeta) :
    ∀ (m : List (String × FileMeta)), (m.map Prod.fst).Nodup →
    sumSizes (m.map (fun p => if p.1 == k then (k, v) else p))
      ≤ sumSizes m + v.size := by
  intro m
  induction m with
  | nil => simp [sumSizes]
  | cons e rest ih =>
    intro hnd
    have hnd' : (rest.map Prod.fst).Nodup := (List.nodup_cons.mp hnd).2
    have hnotin : e.1 ∉ rest.map Prod.fst := (List.nodup_cons.mp hnd).1
    by_cases hek : e.1 = k
    · have hrest : rest.map (fun p => if p.1 == k then (k, v) else p) = rest := by
        have : rest.map (fun p => if p.1 == k then (k, v) else p)
            = rest.map id := by
          apply List.map_congr_left
          intro q hq
          have hqk : ¬ q.1 = k := by
            intro hc
            exact hnotin (hek ▸ hc ▸ List.mem_map_of_mem Prod.fst hq)
          simp [hqk]
        simpa using this
      simp only [List.map_cons, hek, beq_self_eq_true, if_true, hrest]
      simp only [sumSizes, List.map_cons, List.sum_cons]
      omega
    · have hbeq : (e.1 == k) = false := by simpa using hek
      have := ih hnd'
      simp only [sumSizes, List.map_cons, List.sum_cons, hbeq,
        Bool.false_eq_true, if_false] at this ⊢
      omega

theorem dictInsert_keysNodup (m : List (String × FileMeta)) (k : String)
    (v : FileMeta) (h : (m.map Prod.fst).Nodup) :
    ((dictInsert m k v).map Prod.fst).Nodup := by
  by_cases hany : m.any (fun p => p.1 == k)
  · rw [dictInsert_keys m k v hany]; exact h
  · unfold dictInsert
    rw [if_neg hany]
    have hnotin : k ∉ m.map Prod.fst := by
      intro hc
      obtain ⟨p, hp, hpk⟩ := List.mem_map.mp hc
      simp only [List.any_eq_true, not_exists, not_and] at hany
      exact absurd (by simpa using hpk) (by simpa using hany p hp)
    simp only [List.map_append, List.map_cons, List.map_nil]
    rw [List.nodup_append]
    exact ⟨h, List.nodup_singleton k, by simpa using hnotin⟩

theorem sumSizes_dictInsert_le (m : List (String × FileMeta)) (k : String)
    (v : FileMeta) (hnd : (m.map Prod.fst).Nodup) :
    sumSizes (dictInsert m k v) ≤ sumSizes m + v.size := by
  unfold dictInsert
  by_cases hany : m.any (fun p => p.1 == k)
  · rw [if_pos hany]
    exact sumSizes_mapReplace_le k v m hnd
  · rw [if_neg hany]
    simp [sumSizes]

theorem calcMeta_nodup_sum (fs : FileSys) (idFn : String → String)
    (hash : ByteList → String) : ∀ (files : List String)
    (md : List (String × FileMeta)) (tot : Nat),
    (md.map Prod.fst).Nodup → sumSizes md ≤ tot →
    (((calcMeta fs idFn hash files (md, tot)).1.map Prod.fst).Nodup
      ∧ sumSizes (calcMeta fs idFn hash files (md, tot)).1
          ≤ (calcMeta fs idFn hash files (md, tot)).2) := by
  intro files
  induction files with
  | nil => intro md tot h1 h2; exact ⟨h1, h2⟩
  | cons p rest ih =>
    intro md tot h1 h2
    cases hfp : fs p with
    | none =>
      rw [calcMeta, hfp]
      exact ih md tot h1 h2
    | some content =>
      rw [calcMeta, hfp]
      apply ih
      · exact dictInsert_keysNodup md _ _ h1
      · calc sumSizes (dictInsert md (idFn p)
            ⟨p, basename p, content.length, content.length / 8192 + 1,
             hash content⟩)
            ≤ sumSizes md + content.length :=
              sumSizes_dictInsert_le md _ _ h1
          _ ≤ tot + content.length := by omega

/-- C4: for every list of existing files, create_session yields a session
whose total_size equals the sum of the individual file sizes, and every
file_metadata entry for a file of size s carries chunk count
floor(s / 8192) + 1.  The concrete 10-byte and 16385-byte scenario is
checked in the witness. -/
theorem session_total_size_and_chunks (fs : FileSys) (idFn : String → String)
    (hash : ByteList → String) (sid : String) (files : List String)
    (hex : ∀ p ∈ files, (fs p).isSome) :
    (mkTransferSession sid files fs idFn hash).total_size
      = (files.map (fun p => ((fs p).getD []).length)).sum
    ∧ ∀ pr ∈ (mkTransferSession sid files fs idFn hash).file_metadata,
        pr.2.chunks = pr.2.size / 8192 + 1 := by
  by_cases hfe : files.isEmpty
  · have : files = [] := List.isEmpty_iff.mp hfe
    subst this
    simp [mkTransferSession]
  · have hfe' : files.isEmpty = false := by
      cases h : files.isEmpty
      · rfl
      · exact absurd h hfe
    constructor
    · simp only [mkTransferSession, hfe', Bool.false_eq_true, if_false]
      simpa using calcMeta_total fs idFn hash files [] 0
    · intro pr hpr
      simp only [mkTransferSession, hfe', Bool.false_eq_true, if_false] at hpr
      rcases calcMeta_entries fs idFn hash files ([], 0) pr hpr with h1 | h1
      · simp at h1
      · obtain ⟨p, content, _, _, he⟩ := h1
        rw [he]

/-- Filesystem for the C4 witness: a 10-byte file at path a and a
16385-byte file at path b. -/
def fsC4 : FileSys := fun p =>
  if p = "a" then some (List.replicate 10 0)
  else if p = "b" then some (List.replicate 16385 0) else none

/-- The session the C4 witness builds over fsC4. -/
def sessionC4 : TransferSession :=
  mkTransferSession "s" ["a", "b"] fsC4 (fun p => p) (fun _ => "")

theorem session_total_size_and_chunks_witness :
    (∀ p ∈ ["a", "b"], (fsC4 p).isSome)
    ∧ sessionC4.total_size
        = ((["a", "b"].map (fun p => ((fsC4 p).getD []).length)).sum)
    ∧ sessionC4.total_size = 16395
    ∧ (dictGet sessionC4.file_metadata "a").map FileMeta.chunks = some 1
    ∧ (dictGet sessionC4.file_metadata "b").map FileMeta.chunks = some 3 := by
  have hstep : calcMeta fsC4 (fun p => p) (fun _ => "") ["a", "b"] ([], 0)
      = ([("a", ⟨"a", "a", 10, 1, ""⟩), ("b", ⟨"b", "b", 16385, 3, ""⟩)],
         16395) := by
    rw [calcMeta]
    rw [show fsC4 "a" = some (List.replicate 10 0) from rfl]
    dsimp only
    simp only [List.length_replicate]
    rw [calcMeta]
    rw [show fsC4 "b" = some (List.replicate 16385 0) from rfl]
    dsimp only
    simp only [List.length_replicate]
    rw [calcMeta]
    norm_num [dictInsert, basename]
    decide
  have hsession : sessionC4
      = ⟨"s", ["a", "b"],
         [("a", ⟨"a", "a", 10, 1, ""⟩), ("b", ⟨"b", "b", 16385, 3, ""⟩)],
         16395, 0, false⟩ := by
    simp only [sessionC4, mkTransferSession, List.isEmpty_cons,
      Bool.false_eq_true, if_false, hstep]
  refine ⟨?_, (session_total_size_and_chunks fsC4 (fun p => p) (fun _ => "")
      "s" ["a", "b"] ?_).1, ?_, ?_, ?_⟩
  · intro p hp
    simp only [List.mem_cons, List.not_mem_nil, or_false] at hp
    rcases hp with h | h <;> subst h <;> rfl
  · intro p hp
    simp only [List.mem_cons, List.not_mem_nil, or_false] at hp
    rcases hp with h | h <;> subst h <;> rfl
  · rw [hsession]
  · rw [hsession]; decide
  · rw [hsession]; decide

/-- Filesystem for the C3 counterexample: only path a exists (one byte). -/
def fsC3 : FileSys := fun p => if p = "a" then some [7] else none

/-- C3 counterexample: create_session called with a listed path that does
not exist (the path missing) returns True, not False as the claim states;
the missing file is silently omitted from file_metadata and the session is
still created and registered. -/
theorem create_session_missing_file_cex :
    (create_session fsC3 (fun p => p) (fun _ => "h") [] "sid"
        ["a", "missing"]).1 = true
    ∧ (dictGet (create_session fsC3 (fun p => p) (fun _ => "h") [] "sid"
        ["a", "missing"]).2 "sid").isSome
    ∧ ((dictGet (create_session fsC3 (fun p => p) (fun _ => "h") [] "sid"
        ["a", "missing"]).2 "sid").map
          (fun s => dictGet s.file_metadata "missing")) = some none
    ∧ ((dictGet (create_session fsC3 (fun p => p) (fun _ => "h") [] "sid"
        ["a", "missing"]).2 "sid").map
          (fun s => (dictGet s.file_metadata "a").isSome)) = some true := by
  refine ⟨by decide, by decide, by decide, by decide⟩

/-- C3 amended: create_session returns True and registers the session even
when a listed path does not exist; such a path is silently omitted from
file_metadata (every metadata key comes from a listed path that exists),
and the except-branch returning False is unreachable for per-file
filesystem errors because the nonexistent-path case is filtered out by the
os.path.exists check rather than raising. -/
theorem create_session_true_and_omits_missing (fs : FileSys)
    (idFn : String → String) (hash : ByteList → String)
    (registry : List (String × TransferSession)) (sid : String)
    (files : List String) :
    (create_session fs idFn hash registry sid files).1 = true
    ∧ dictGet (create_session fs idFn hash registry sid files).2 sid
        = some (mkTransferSession sid files fs idFn hash)
    ∧ ∀ pr ∈ (mkTransferSession sid files fs idFn hash).file_metadata,
        ∃ p, p ∈ files ∧ (fs p).isSome ∧ pr.1 = idFn p := by
  refine ⟨rfl, dictGet_dictInsert_self _ _ _, ?_⟩
  intro pr hpr
  by_cases hfe : files.isEmpty
  · simp [mkTransferSession, hfe] at hpr
  · have hfe' : files.isEmpty = false := by
      cases h : files.isEmpty
      · rfl
      · exact absurd h hfe
    simp only [mkTransferSession, hfe', Bool.false_eq_true, if_false] at hpr
    rcases calcMeta_entries fs idFn hash files ([], 0) pr hpr with h1 | h1
    · simp at h1
    · obtain ⟨p, content, hp, hc, he⟩ := h1
      exact ⟨p, hp, by simp [hc], by rw [he]⟩

theorem create_session_true_and_omits_missing_witness :
    (create_session fsC3 (fun p => p) (fun _ => "h") [] "sid" ["a"]).1 = true
    ∧ ∃ p, p ∈ ["a"] ∧ (fsC3 p).isSome
        ∧ (("a", (⟨"a", "a", 1, 1, "h"⟩ : FileMeta)) : String × FileMeta).1
            = (fun p => p) p :=
  ⟨(create_session_true_and_omits_missing fsC3 (fun p => p) (fun _ => "h")
      [] "sid" ["a"]).1,
   (create_session_true_and_omits_missing fsC3 (fun p => p) (fun _ => "h")
      [] "sid" ["a"]).2.2 ("a", ⟨"a", "a", 1, 1, "h"⟩) (by decide)⟩

/-- The inner while-loop of P2PManager._send_files_direct for one file:
read up to 8192 bytes from the current position, stop on an empty read,
send the chunk, add its length to the counters, and, when a progress
callback is installed, compute (transferred / total) * 100 — which raises
ZeroDivisionError when total is 0, aborting the operation after the chunk
was already counted.  Returns (bytes sent for this file, False on the
ZeroDivisionError path).  The fuel is a bound on the iterations; each
iteration advances the position by at least one byte, so the top-level
wrapper's fileSize + 1 always suffices. -/
def sendFileLoopF (hasCb : Bool) (total : Nat) (content : ByteList)
    (fileSize : Nat) : Nat → Nat → Nat × Bool
  | 0, _ => (0, true)
  | fuel + 1, pos =>
    if pos < fileSize then
      let chunk := (content.drop pos).take 8192
      if chunk.length = 0 then (0, true)
      else if hasCb ∧ total = 0 then (chunk.length, false)
      else
        let r := sendFileLoopF hasCb total content fileSize fuel
          (pos + chunk.length)
        (chunk.length + r.1, r.2)
    else (0, true)

/-- One file's worth of P2PManager._send_files_direct: the per-file
progress callback runs before the file is opened (raising ZeroDivisionError
when total_size is 0), then the file is opened (raising when the path does
not exist), then the chunk loop runs. -/
def sendOneFile (fs : FileSys) (hasCb : Bool) (total : Nat)
    (fi : FileMeta) : Nat × Bool :=
  if hasCb ∧ total = 0 then (0, false)
  else
    match fs fi.path with
    | none => (0, false)
    | some content => sendFileLoopF hasCb total content fi.size (fi.size + 1) 0

/-- The file iteration of P2PManager._send_files_direct over the
file_metadata entries, accumulating the bytes sent; an exception inside
one file aborts the iteration with the bytes counted so far. -/
def sendFilesGo (fs : FileSys) (hasCb : Bool) (total : Nat) :
    List (String × FileMeta) → Nat × Bool
  | [] => (0, true)
  | (_, fi) :: rest =>
    let r := sendOneFile fs hasCb total fi
    if r.2 then
      let r2 := sendFilesGo fs hasCb total rest
      (r.1 + r2.1, r2.2)
    else (r.1, false)

/-- Model of P2PManager._send_files_direct: socket setup, accept and the
metadata frame are modelled as succeeding; the returned Boolean is the
overall success flag and the returned session carries the mutated
transferred_size, which the source only ever increments — exceptions do
not roll it back and nothing resets it. -/
def send_files_direct (fs : FileSys) (hasCb : Bool)
    (session : TransferSession) : Bool × TransferSession :=
  let r := sendFilesGo fs hasCb session.total_size session.file_metadata
  (r.2, ⟨session.session_id, session.files, session.file_metadata,
         session.total_size, session.transferred_size + r.1,
         session.is_active⟩)

/-- Model of P2PManager.send_files: looks the session up in the registry
(returning False when absent) and runs the direct transfer; the WebRTC
branch is a stub that falls back to the direct transfer, so this is the
behavior either way.  The returned registry carries the mutated session. -/
def send_files (fs : FileSys) (registry : List (String × TransferSession))
    (sid : String) (hasCb : Bool) :
    Bool × List (String × TransferSession) :=
  match dictGet registry sid with
  | none => (false, registry)
  | some session =>
    let r := send_files_direct fs hasCb session
    (r.1, dictInsert registry sid r.2)

theorem sendFileLoopF_ok_of_not_cb (total : Nat) (content : ByteList)
    (fileSize : Nat) : ∀ (fuel pos : Nat),
    (sendFileLoopF false total content fileSize fuel pos).2 = true := by
  intro fuel
  induction fuel with
  | zero => intro pos; rfl
  | succ fuel ih =>
    intro pos
    by_cases hp : pos < fileSize
    · simp only [sendFileLoopF, if_pos hp]
      by_cases hz : ((content.drop pos).take 8192).length = 0
      · simp [hz]
      · simp [hz, ih]
        split <;> rfl
    · simp [sendFileLoopF, hp]

theorem sendFileLoopF_exact (total : Nat) (content : ByteList) :
    ∀ (fuel pos : Nat), content.length - pos < fuel →
    sendFileLoopF false total content content.length fuel pos
      = (content.length - pos, true) := by
  intro fuel
  induction fuel with
  | zero => intro pos h; omega
  | succ fuel ih =>
    intro pos h
    by_cases hp : pos < content.length
    · have hclen : ((content.drop pos).take 8192).length
          = min 8192 (content.length - pos) := by
        simp [List.length_take, List.length_drop]
      have hzpos : 0 < ((content.drop pos).take 8192).length := by omega
      have hz : ¬ ((content.drop pos).take 8192).length = 0 := by omega
      simp only [sendFileLoopF, if_pos hp, hz, if_false, Bool.false_eq_true,
        false_and]
      rw [ih (pos + ((content.drop pos).take 8192).length) (by omega)]
      simp only [Prod.mk.injEq]
      refine ⟨?_, trivial⟩
      rw [hclen]
      omega
    · simp only [sendFileLoopF, if_neg hp, Prod.mk.injEq]
      refine ⟨by omega, trivial⟩

theorem sendFilesGo_consistent (fs : FileSys) (total : Nat) :
    ∀ (md : List (String × FileMeta)),
    (∀ pr ∈ md, ∃ c, fs pr.2.path = some c ∧ pr.2.size = c.length) →
    sendFilesGo fs false total md = (sumSizes md, true) := by
  intro md
  induction md with
  | nil => intro _; rfl
  | cons e rest ih =>
    intro hmd
    obtain ⟨c, hc, hsz⟩ := hmd e (List.mem_cons_self _ _)
    have hone : sendOneFile fs false total e.2 = (e.2.size, true) := by
      simp only [sendOneFile, false_and, if_false, hc, hsz]
      exact sendFileLoopF_exact total c (c.length + 1) 0 (by omega)
    rcases e with ⟨k, fi⟩
    simp only [sendFilesGo, hone, if_true]
    rw [ih (fun pr hpr => hmd pr (List.mem_cons_of_mem _ hpr))]
    simp [sumSizes]

theorem mkTransferSession_entries_consistent (fs : FileSys)
    (idFn : String → String) (hash : ByteList → String) (sid : String)
    (files : List String) :
    ∀ pr ∈ (mkTransferSession sid files fs idFn hash).file_metadata,
      ∃ c, fs pr.2.path = some c ∧ pr.2.size = c.length := by
  intro pr hpr
  by_cases hfe : files.isEmpty
  · simp [mkTransferSession, hfe] at hpr
  · have hfe' : files.isEmpty = false := by
      cases h : files.isEmpty
      · rfl
      · exact absurd h hfe
    simp only [mkTransferSession, hfe', Bool.false_eq_true, if_false] at hpr
    rcases calcMeta_entries fs idFn hash files ([], 0) pr hpr with h1 | h1
    · simp at h1
    · obtain ⟨p, content, _, hc, he⟩ := h1
      exact ⟨content, by rw [he]; exact hc, by rw [he]⟩

theorem mkTransferSession_sum_le (fs : FileSys) (idFn : String → String)
    (hash : ByteList → String) (sid : String) (files : List String) :
    sumSizes (mkTransferSession sid files fs idFn hash).file_metadata
      ≤ (mkTransferSession sid files fs idFn hash).total_size := by
  by_cases hfe : files.isEmpty
  · simp [mkTransferSession, hfe, sumSizes]
  · have hfe' : files.isEmpty = false := by
      cases h : files.isEmpty
      · rfl
      · exact absurd h hfe
    simp only [mkTransferSession, hfe', Bool.false_eq_true, if_false]
    exact (calcMeta_nodup_sum fs idFn hash files [] 0 (by simp)
      (by simp [sumSizes])).2

/-- C2 amended: transferred_size is a cumulative counter that nothing
resets: _send_files_direct only ever adds to it.  On the first send of a
freshly created session (whose counter starts at 0 and whose metadata still
matches the filesystem) it ends at the sum of the metadata sizes, which
never exceeds total_size; running send_files again on the same session
keeps adding and exceeds total_size, as the counterexample shows. -/
theorem first_send_transferred_le_total (fs : FileSys)
    (idFn : String → String) (hash : ByteList → String) (sid : String)
    (files : List String) :
    (send_files_direct fs false
        (mkTransferSession sid files fs idFn hash)).2.transferred_size
      = sumSizes (mkTransferSession sid files fs idFn hash).file_metadata
    ∧ (send_files_direct fs false
        (mkTransferSession sid files fs idFn hash)).2.transferred_size
      ≤ (mkTransferSession sid files fs idFn hash).total_size := by
  have hcons := mkTransferSession_entries_consistent fs idFn hash sid files
  have hgo := sendFilesGo_consistent fs
    (mkTransferSession sid files fs idFn hash).total_size
    (mkTransferSession sid files fs idFn hash).file_metadata hcons
  have htr : (mkTransferSession sid files fs idFn hash).transferred_size
      = 0 := rfl
  constructor
  · simp only [send_files_direct, hgo, htr]
    omega
  · simp only [send_files_direct, hgo, htr]
    simpa using mkTransferSession_sum_le fs idFn hash sid files

/-- Filesystem for the C2 counterexample: one existing 1-byte file. -/
def fsC2 : FileSys := fun p => if p = "a" then some [0] else none

/-- Registry holding the freshly created C2 session. -/
def registryC2 : List (String × TransferSession) :=
  [("s", mkTransferSession "s" ["a"] fsC2 (fun p => p) (fun _ => ""))]

/-- C2 counterexample: running send_files twice on the same registered
session leaves transferred_size = 2 while total_size = 1, so the counter is
not reset per operation and transferred_size is greater than total_size. -/
theorem transferred_size_not_reset_cex :
    ∃ t, dictGet (send_files fsC2
        (send_files fsC2 registryC2 "s" false).2 "s" false).2 "s" = some t
      ∧ t.total_size < t.transferred_size :=
  ⟨⟨"s", ["a"], [("a", ⟨"a", "a", 1, 1, ""⟩)], 1, 2, false⟩,
   by decide, by decide⟩

theorem sendFilesGo_ok_no_cb (fs : FileSys) (total : Nat) :
    ∀ (md : List (String × FileMeta)),
    (∀ pr ∈ md, (fs pr.2.path).isSome) →
    (sendFilesGo fs false total md).2 = true := by
  intro md
  induction md with
  | nil => intro _; rfl
  | cons e rest ih =>
    intro hmd
    obtain ⟨c, hc⟩ := Option.isSome_iff_exists.mp (hmd e (List.mem_cons_self _ _))
    rcases e with ⟨k, fi⟩
    have hone : (sendOneFile fs false total fi).2 = true := by
      simp only [sendOneFile, Bool.false_eq_true, false_and, if_false, hc]
      exact sendFileLoopF_ok_of_not_cb total c fi.size (fi.size + 1) 0
    simp only [sendFilesGo, hone, if_true]
    exact ih (fun pr hpr => hmd pr (List.mem_cons_of_mem _ hpr))

/-- C10: on a registered session with non-empty file_metadata but
total_size 0 over existing files, send with a progress callback fails
(False) because the first per-file progress computation divides
transferred_size by total_size, raising ZeroDivisionError, while the
identical send with no callback succeeds (True). -/
theorem send_files_zero_total_callback (fs : FileSys)
    (session : TransferSession) (h1 : session.file_metadata ≠ [])
    (h2 : session.total_size = 0)
    (h3 : ∀ pr ∈ session.file_metadata, (fs pr.2.path).isSome) :
    (send_files_direct fs true session).1 = false
    ∧ (send_files_direct fs false session).1 = true := by
  constructor
  · rcases hmd : session.file_metadata with _ | ⟨⟨k, fi⟩, rest⟩
    · exact absurd hmd h1
    · simp [send_files_direct, hmd, h2, sendFilesGo, sendOneFile]
  · simp only [send_files_direct]
    exact sendFilesGo_ok_no_cb fs session.total_size session.file_metadata h3

/-- Filesystem for the C10 witness: one existing zero-byte file. -/
def fsC10 : FileSys := fun p => if p = "z" then some [] else none

/-- The zero-total session the C10 witness builds over fsC10. -/
def sessionC10 : TransferSession :=
  mkTransferSession "s" ["z"] fsC10 (fun p => p) (fun _ => "")

theorem send_files_zero_total_callback_witness :
    sessionC10.file_metadata ≠ [] ∧ sessionC10.total_size = 0
    ∧ (∀ pr ∈ sessionC10.file_metadata, (fsC10 pr.2.path).isSome)
    ∧ (send_files_direct fsC10 true sessionC10).1 = false
    ∧ (send_files_direct fsC10 false sessionC10).1 = true :=
  ⟨by decide, by decide, by decide,
   (send_files_zero_total_callback fsC10 sessionC10 (by decide) (by decide)
     (by decide)).1,
   (send_files_zero_total_callback fsC10 sessionC10 (by decide) (by decide)
     (by decide)).2⟩

/-- One entry of the files mapping inside the received metadata frame, as
read by P2PManager._receive_files_direct (only name and size are used). -/
structure RFileInfo where
  name : String
  size : Nat
deriving DecidableEq

/-- The parsed metadata frame of _receive_files_direct.  session_id is
optional because the source reads it with dict.get, which yields None when
the key is absent. -/
structure RecvMetadata where
  session_id : Option String
  files : List (String × RFileInfo)
  total_size : Nat
deriving DecidableEq

/-- Result of _receive_files_direct: the success flag, the files written to
the download directory (name and bytes), and the stream as left after the
reads. -/
structure RecvResult where
  ok : Bool
  written : List (String × ByteList)
  stream : ByteStream
deriving DecidableEq

/-- The inner while-loop of _receive_files_direct for one file: recv at
most min(8192, remaining declared size) bytes, break out of the loop on a
zero-length read (note: break, not fail), write the chunk, and, when a
progress callback is installed, compute (received / total) * 100 — which
raises ZeroDivisionError when total is 0, after the chunk was written.
Returns (bytes written, stream, False on the ZeroDivisionError path).  The
fuel is a bound on the iterations; each iteration advances by at least one
byte, so the wrapper's fileSize + 1 always suffices. -/
def recvFileLoopF (hasCb : Bool) (total : Nat) (fileSize : Nat) :
    Nat → Nat → ByteStream → ByteList × ByteStream × Bool
  | 0, _, s => ([], s, true)
  | fuel + 1, pos, s =>
    if pos < fileSize then
      let p := recvBytes (min 8192 (fileSize - pos)) s
      if p.1.length = 0 then ([], p.2, true)
      else if hasCb ∧ total = 0 then (p.1, p.2, false)
      else
        let r := recvFileLoopF hasCb total fileSize fuel (pos + p.1.length) p.2
        (p.1 ++ r.1, r.2.1, r.2.2)
    else ([], s, true)

/-- The file iteration of _receive_files_direct over the metadata's files
mapping: per file, the pre-loop progress callback (dividing by total_size),
then the destination file is opened and the chunk loop writes into it. -/
def recvFilesGo (hasCb : Bool) (total : Nat) :
    List (String × RFileInfo) → ByteStream →
    List (String × ByteList) × ByteStream × Bool
  | [], s => ([], s, true)
  | (_, fi) :: rest, s =>
    if hasCb ∧ total = 0 then ([], s, false)
    else
      let r := recvFileLoopF hasCb total fi.size (fi.size + 1) 0 s
      if r.2.2 then
        let r2 := recvFilesGo hasCb total rest r.2.1
        ((fi.name, r.1) :: r2.1, r2.2)
      else ([(fi.name, r.1)], r.2.1, false)

/-- Model of P2PManager._receive_files_direct after the TCP connect (which
is modelled as succeeding): read the framed metadata message; if it is
absent or its session_id differs from the requested one, close and return
False without reading any further bytes; otherwise create the download
directory and iterate the declared files, reading each one's declared
number of bytes from the stream. -/
def receive_files_direct (dec : ByteList → Option RecvMetadata)
    (sid : String) (hasCb : Bool) (s : ByteStream) : RecvResult :=
  let r := receiveJson dec s
  match r.1 with
  | none => ⟨false, [], r.2⟩
  | some md =>
    if md.session_id = some sid then
      let g := recvFilesGo hasCb md.total_size md.files r.2
      ⟨g.2.2, g.1, g.2.1⟩
    else ⟨false, [], r.2⟩

theorem recvFileLoopF_ok_no_cb (total fileSize : Nat) :
    ∀ (fuel pos : Nat) (s : ByteStream),
    (recvFileLoopF false total fileSize fuel pos s).2.2 = true := by
  intro fuel
  induction fuel with
  | zero => intro pos s; rfl
  | succ fuel ih =>
    intro pos s
    by_cases hp : pos < fileSize
    · simp only [recvFileLoopF, if_pos hp, Bool.false_eq_true, false_and,
        if_false]
      by_cases hz : (recvBytes (min 8192 (fileSize - pos)) s).1.length = 0
      · simp [hz]
      · simp [hz, ih]
    · simp [recvFileLoopF, hp]

theorem recvFilesGo_ok_no_cb (total : Nat) :
    ∀ (files : List (String × RFileInfo)) (s : ByteStream),
    (recvFilesGo false total files s).2.2 = true := by
  intro files
  induction files with
  | nil => intro s; rfl
  | cons e rest ih =>
    intro s
    rcases e with ⟨k, fi⟩
    simp only [recvFilesGo, Bool.false_eq_true, false_and, if_false]
    rw [recvFileLoopF_ok_no_cb total fi.size (fi.size + 1) 0 s]
    simp only [if_true]
    exact ih _

/-- C1 amended: a zero-length read before a file's declared size is reached
makes the receiver break out of that file's loop (leaving the file
truncated) and move on to the next file; it is not treated as a failure —
with no progress callback, once valid matching metadata has been read,
_receive_files_direct returns True regardless of how the stream ends. -/
theorem receive_premature_close_still_true
    (dec : ByteList → Option RecvMetadata) (sid : String) (s : ByteStream)
    (md : RecvMetadata) (h1 : (receiveJson dec s).1 = some md)
    (h2 : md.session_id = some sid) :
    (receive_files_direct dec sid false s).ok = true := by
  simp only [receive_files_direct, h1, h2, if_pos]
  exact recvFilesGo_ok_no_cb md.total_size md.files (receiveJson dec s).2

/-- Decoder for the C1 counterexample: the single byte 42 decodes to a
metadata frame matching session s and declaring one 2-byte file f. -/
def decC1 : ByteList → Option RecvMetadata := fun bs =>
  if bs = [42] then some ⟨some "s", [("f", ⟨"f", 2⟩)], 2⟩ else none

/-- C1 counterexample: the stream carries a valid matching metadata frame
declaring a 2-byte file but then closes before any file byte arrives; the
socket read returns zero bytes with 0 of 2 declared bytes accumulated, yet
receive_files_direct returns True (and writes an empty file f), so the
premature stream close is not a failure of the operation as claimed. -/
theorem receive_premature_close_cex :
    (receive_files_direct decC1 "s" false ⟨[0, 0, 0, 1, 42], []⟩).ok = true
    ∧ (receive_files_direct decC1 "s" false ⟨[0, 0, 0, 1, 42], []⟩).written
        = [("f", [])] := by
  refine ⟨by decide, by decide⟩

theorem receive_premature_close_still_true_witness :
    (receiveJson decC1 ⟨[0, 0, 0, 1, 42], []⟩).1
        = some ⟨some "s", [("f", ⟨"f", 2⟩)], 2⟩
    ∧ (⟨some "s", [("f", ⟨"f", 2⟩)], 2⟩ : RecvMetadata).session_id = some "s"
    ∧ (receive_files_direct decC1 "s" false ⟨[0, 0, 0, 1, 42], []⟩).ok = true :=
  ⟨by decide, by decide,
   receive_premature_close_still_true decC1 "s" ⟨[0, 0, 0, 1, 42], []⟩
     ⟨some "s", [("f", ⟨"f", 2⟩)], 2⟩ (by decide) (by decide)⟩

/-- C5: when the metadata frame is absent (None) or carries a session_id
different from the requested one, the receiver closes the connection and
returns False with no files written and without reading any bytes beyond
the metadata attempt: the resulting stream is exactly the one receiveJson
left behind. -/
theorem receive_metadata_mismatch_aborts
    (dec : ByteList → Option RecvMetadata) (sid : String) (hasCb : Bool)
    (s : ByteStream)
    (h : (receiveJson dec s).1 = none
      ∨ ∃ md, (receiveJson dec s).1 = some md ∧ md.session_id ≠ some sid) :
    receive_files_direct dec sid hasCb s
      = ⟨false, [], (receiveJson dec s).2⟩ := by
  rcases h with h | ⟨md, hmd, hne⟩
  · simp [receive_files_direct, h]
  · simp [receive_files_direct, hmd, hne]

/-- Decoder for the C5 witness: every payload decodes to a frame whose
session_id is other, never the requested one. -/
def decC5 : ByteList → Option RecvMetadata := fun _ =>
  some ⟨some "other", [], 0⟩

theorem receive_metadata_mismatch_aborts_witness :
    ((receiveJson decC5 ⟨[0, 0, 0, 0], []⟩).1 = none
      ∨ ∃ md, (receiveJson decC5 ⟨[0, 0, 0, 0], []⟩).1 = some md
          ∧ md.session_id ≠ some "s")
    ∧ receive_files_direct decC5 "s" false ⟨[0, 0, 0, 0], []⟩
        = ⟨false, [], ⟨[], []⟩⟩ :=
  ⟨Or.inr ⟨⟨some "other", [], 0⟩, by decide, by decide⟩,
   (receive_metadata_mismatch_aborts decC5 "s" false ⟨[0, 0, 0, 0], []⟩
     (Or.inr ⟨⟨some "other", [], 0⟩, by decide, by decide⟩)).trans (by decide)⟩

/-- A discovery reply as parsed by the client side of
P2PManager.discover_session: a JSON object whose fields are read with
dict.get, hence each one optional. -/
structure ParsedMsg where
  mtype : Option String
  msession : Option String
  mendpoint : Option String
deriving DecidableEq

/-- Observable outcome of one discover_session call: how many datagrams
were broadcast, the socket timeout installed (seconds), and the returned
endpoint (None on timeout, unparseable reply or non-matching reply). -/
structure DiscoverOutcome where
  datagramsSent : Nat
  timeoutSeconds : Nat
  endpoint : Option String
deriving DecidableEq

/-- Model of P2PManager.discover_session: build and broadcast exactly one
session_discovery datagram on a socket with a 5-second timeout, then block
for at most one reply.  The environment's reply is none on timeout,
some none when the reply does not parse (invalid JSON, undecodable bytes
or a non-object — every parse failure is caught and becomes a None
return), and some (some r) for a parsed JSON object r.  A matching
session_response returns its endpoint field (itself read with dict.get);
everything else falls through to None with no retry. -/
def discover_session (sid : String) (reply : Option (Option ParsedMsg)) :
    DiscoverOutcome :=
  let result := match reply with
    | none => none
    | some none => none
    | some (some r) =>
      if r.mtype = some "session_response" ∧ r.msession = some sid then
        r.mendpoint
      else none
  ⟨1, 5, result⟩

/-- C7: each discover_session call sends exactly one broadcast datagram and
waits with a 5-second timeout for at most one reply; a well-formed
session_response with matching session_id returns the advertised endpoint;
timeout, an unparseable reply, or a non-matching reply returns None, with
no automatic retry inside the call (the single recvfrom is the only read;
the outcome of one call is a pure function of the single reply). -/
theorem discover_session_spec (sid : String)
    (reply : Option (Option ParsedMsg)) :
    (discover_session sid reply).datagramsSent = 1
    ∧ (discover_session sid reply).timeoutSeconds = 5
    ∧ (reply = none → (discover_session sid reply).endpoint = none)
    ∧ (reply = some none → (discover_session sid reply).endpoint = none)
    ∧ (∀ r, reply = some (some r) → r.mtype = some "session_response" →
        r.msession = some sid →
        (discover_session sid reply).endpoint = r.mendpoint)
    ∧ (∀ r, reply = some (some r) →
        ¬ (r.mtype = some "session_response" ∧ r.msession = some sid) →
        (discover_session sid reply).endpoint = none) := by
  refine ⟨rfl, rfl, ?_, ?_, ?_, ?_⟩
  · intro h; subst h; rfl
  · intro h; subst h; rfl
  · intro r h h1 h2
    subst h
    simp [discover_session, h1, h2]
  · intro r h hn
    subst h
    simp [discover_session, hn]

theorem discover_session_spec_witness :
    (discover_session "s" (some (some ⟨some "session_response", some "s",
        some "1.2.3.4:45679"⟩))).datagramsSent = 1
    ∧ (discover_session "s" (some (some ⟨some "session_response", some "s",
        some "1.2.3.4:45679"⟩))).timeoutSeconds = 5
    ∧ (discover_session "s" (some (some ⟨some "session_response", some "s",
        some "1.2.3.4:45679"⟩))).endpoint = some "1.2.3.4:45679" :=
  ⟨(discover_session_spec "s" _).1, (discover_session_spec "s" _).2.1,
   (discover_session_spec "s" (some (some ⟨some "session_response", some "s",
      some "1.2.3.4:45679"⟩))).2.2.2.2.1
     ⟨some "session_response", some "s", some "1.2.3.4:45679"⟩ rfl rfl rfl⟩

/-- One datagram as received by the discovery server loop, classified by
how Python processes its bytes: notUtf8 is a datagram whose bytes do not
decode as UTF-8 (for example the single byte 0xFF, where data.decode()
raises UnicodeDecodeError inside the listener loop), badJson decodes but
json.loads raises JSONDecodeError (for example b"not json"), nonDict
parses as JSON that is not an object (for example b"[1]", where .get
raises AttributeError), and obj is a parsed JSON object carrying the
type and session_id fields as read by dict.get. -/
inductive Datagram where
  | notUtf8 : Datagram
  | badJson : Datagram
  | nonDict : Datagram
  | obj (dtype : Option String) (dsession : Option String) : Datagram
deriving DecidableEq

/-- The session_response datagram the discovery server sends back. -/
structure SessionResponse where
  rtype : String
  rsession : String
  rendpoint : String
deriving DecidableEq

/-- Model of P2PManager._handle_discovery_message: none means an exception
escapes the handler (only JSONDecodeError is caught, so the AttributeError
of a non-object parse propagates); some none means handled without a
reply; some (some r) means the reply r was sent to the querying address.
The notUtf8 case never reaches the handler (decode fails in the caller)
and is mapped to none, matching the exception it raises there. -/
def handle_discovery_message (sessions : List String) (localIp : String)
    (port : Nat) : Datagram → Option (Option SessionResponse)
  | .notUtf8 => none
  | .badJson => some none
  | .nonDict => none
  | .obj t sid =>
    some (if t = some "session_discovery" then
      match sid with
      | some x =>
        if x ∈ sessions then
          some ⟨"session_response", x, localIp ++ ":" ++ toString port⟩
        else none
      | none => none
    else none)

/-- Model of the listener loop of P2PManager._start_discovery_service over
a finite sequence of incoming datagrams: a datagram whose processing
raises outside the JSONDecodeError handler (undecodable bytes, non-object
JSON) breaks the loop; otherwise the loop continues, collecting the
replies sent. -/
def discovery_loop (sessions : List String) (localIp : String) (port : Nat) :
    List Datagram → List SessionResponse
  | [] => []
  | Datagram.notUtf8 :: _ => []
  | d :: rest =>
    match handle_discovery_message sessions localIp port d with
    | none => []
    | some none => discovery_loop sessions localIp port rest
    | some (some r) => r :: discovery_loop sessions localIp port rest

/-- C8 counterexample: a datagram that is not valid JSON because its bytes
do not even decode as UTF-8 (such as the single byte 0xFF) is not silently
discarded — the UnicodeDecodeError breaks the listener loop, so a
well-formed query for a registered session arriving afterwards is never
answered, although the same query alone would be. -/
theorem discovery_loop_not_utf8_cex :
    discovery_loop ["s"] "ip" 45679
        [Datagram.notUtf8, Datagram.obj (some "session_discovery") (some "s")]
      = []
    ∧ discovery_loop ["s"] "ip" 45679
        [Datagram.obj (some "session_discovery") (some "s")]
      = [⟨"session_response", "s", "ip" ++ ":" ++ toString 45679⟩] := by
  refine ⟨rfl, by decide⟩

/-- C8 amended: the discovery server replies only to a datagram parsing as
a JSON object of type session_discovery whose session_id is registered,
and every reply is a session_response for that registered session (it
never sends a not-found reply); a datagram that decodes as UTF-8 text but
fails JSON parsing is silently discarded and the loop keeps running and
answering later queries; however a datagram whose bytes do not decode as
UTF-8, or whose JSON is not an object, terminates the listener loop. -/
theorem discovery_server_reply_spec (sessions : List String)
    (localIp : String) (port : Nat) :
    (∀ d r, handle_discovery_message sessions localIp port d
        = some (some r) →
      r.rtype = "session_response" ∧ r.rsession ∈ sessions
        ∧ d = Datagram.obj (some "session_discovery") (some r.rsession))
    ∧ (∀ rest, discovery_loop sessions localIp port
        (Datagram.badJson :: rest) = discovery_loop sessions localIp port rest)
    ∧ (∀ rest, discovery_loop sessions localIp port
        (Datagram.notUtf8 :: rest) = [])
    ∧ (∀ rest, discovery_loop sessions localIp port
        (Datagram.nonDict :: rest) = []) := by
  refine ⟨?_, ?_, ?_, ?_⟩
  · intro d r h
    cases d with
    | notUtf8 => simp [handle_discovery_message] at h
    | badJson => simp [handle_discovery_message] at h
    | nonDict => simp [handle_discovery_message] at h
    | obj t sid =>
      simp only [handle_discovery_message, Option.some.injEq] at h
      split at h
      · rename_i ht
        cases sid with
        | none => simp at h
        | some x =>
          simp only at h
          split at h
          · rename_i hx
            rw [← Option.some.injEq] at h
            simp only [Option.some.injEq] at h
            subst ht
            refine ⟨?_, ?_, ?_⟩
            · rw [← h]
            · rw [← h]; exact hx
            · rw [← h]
          · simp at h
      · simp at h
  · intro rest; rfl
  · intro rest; rfl
  · intro rest; rfl

theorem discovery_server_reply_spec_witness :
    (⟨"session_response", "s", "ip" ++ ":" ++ toString 45679⟩
        : SessionResponse).rtype = "session_response"
    ∧ (⟨"session_response", "s", "ip" ++ ":" ++ toString 45679⟩
        : SessionResponse).rsession ∈ ["s"]
    ∧ Datagram.obj (some "session_discovery") (some "s")
        = Datagram.obj (some "session_discovery")
            (some (⟨"session_response", "s", "ip" ++ ":" ++ toString 45679⟩
              : SessionResponse).rsession) :=
  (discovery_server_reply_spec ["s"] "ip" 45679).1
    (Datagram.obj (some "session_discovery") (some "s"))
    ⟨"session_response", "s", "ip" ++ ":" ++ toString 45679⟩ (by decide)

/-- Model of str.lower() over the character list (Python and Lean agree on
the ASCII range relevant to hex digests). -/
def strLower (s : String) : String := String.mk (s.data.map Char.toLower)

/-- Model of FileInfo(file_path).checksum as used by
FileManager.verify_file_integrity: an empty string when the path does not
exist or the file is at least 100 MB, otherwise the whole-file digest
(hashlib.md5 folded over 4096-byte reads, abstracted as hash applied to
the whole content, which is how a streaming hash behaves). -/
def fileInfoChecksum (hash : ByteList → String) (fs : FileSys)
    (path : String) : String :=
  match fs path with
  | none => ""
  | some c => if c.length < 100 * 1024 * 1024 then hash c else ""

/-- Model of FileManager.verify_file_integrity: empty expected checksum is
trivially valid; otherwise the recomputed digest is compared to the
expected value with plain ==, which is case-sensitive. -/
def verify_file_integrity (hash : ByteList → String) (fs : FileSys)
    (path expected : String) : Bool :=
  if expected = "" then true
  else fileInfoChecksum hash fs path == expected

/-- Model of utils.verify_checksum at its default algorithm md5: opening a
missing file raises and the handler returns False; otherwise the digest of
the content is compared to the expected value after lowering both sides. -/
def verify_checksum (hash : ByteList → String) (fs : FileSys)
    (path expected : String) : Bool :=
  match fs path with
  | none => false
  | some c => strLower (hash c) == strLower expected

/-- The md5 hex digest of the empty input, used by the C9 counterexample as
a concrete digest value (hex digests are lowercase and never empty). -/
def hashC9 : ByteList → String := fun _ => "d41d8cd98f00b204e9800998ecf8427e"

/-- Filesystem for the C9 counterexample: one empty file at path f. -/
def fsC9 : FileSys := fun p => if p = "f" then some [] else none

/-- C9 counterexample: FileManager.verify_file_integrity compares the
digests case-SENSITIVELY — with the uppercase spelling of the correct
digest it returns False although the case-insensitive comparison of the
same strings succeeds; and utils.verify_checksum with an absent (empty)
expected checksum returns False rather than trivially succeeding, since a
hex digest never equals the empty string. -/
theorem checksum_case_and_empty_cex :
    verify_file_integrity hashC9 fsC9 "f"
        "D41D8CD98F00B204E9800998ECF8427E" = false
    ∧ (strLower "d41d8cd98f00b204e9800998ecf8427e"
        == strLower "D41D8CD98F00B204E9800998ECF8427E") = true
    ∧ verify_checksum hashC9 fsC9 "f" "" = false := by
  refine ⟨by decide, by decide, by decide⟩

/-- C9 amended: the two verification routines split the claimed behavior
between them — FileManager.verify_file_integrity treats an absent (empty)
expected checksum as trivially valid but compares digests case-sensitively,
while utils.verify_checksum compares case-insensitively (lowering both
sides) but returns the result of that comparison even for an empty
expected value, which is then False. -/
theorem checksum_verification_spec (hash : ByteList → String) (fs : FileSys)
    (path expected : String) :
    (expected = "" → verify_file_integrity hash fs path expected = true)
    ∧ (expected ≠ "" → verify_file_integrity hash fs path expected
        = (fileInfoChecksum hash fs path == expected))
    ∧ (∀ c, fs path = some c → verify_checksum hash fs path expected
        = (strLower (hash c) == strLower expected))
    ∧ (fs path = none → verify_checksum hash fs path expected = false) := by
  refine ⟨?_, ?_, ?_, ?_⟩
  · intro h; simp [verify_file_integrity, h]
  · intro h; simp [verify_file_integrity, h]
  · intro c h; simp [verify_checksum, h]
  · intro h; simp [verify_checksum, h]

theorem checksum_verification_spec_witness :
    verify_file_integrity hashC9 fsC9 "f" "" = true :=
  (checksum_verification_spec hashC9 fsC9 "f" "").1 rfl
